import Mathlib

/-!
Shallow embedding of `containerd-registry` (`main.go`): a read-only OCI
registry backend over a containerd content store and image catalog.

The content store is modelled as a partial map from digests to blob bytes
(the store's `Info` size is the authoritative byte length of the stored
blob, as in containerd).  The image catalog is a list of named images, in
the order `ImageService.List` returns them (containerd returns entries
sorted by name; sortedness appears as an explicit hypothesis where a
claim depends on it).  Go's `nil` interface receivers and panics are made
explicit: `ContainerdBlobReader.readerAt` is `none` until a store reader
has been opened, and calling a method through a nil interface value is a
`GoResult.panicked` outcome, as in the Go runtime.

Bytes are modelled as `List Char` (the sources only ever treat blob
contents as opaque bytes or as JSON text).  Sizes are `Int`, mirroring
Go's `int64`.
-/

/-- `ociregistry.Descriptor` restricted to the fields `main.go` touches:
digest, size and media type.  Zero values are `0` and `""`, as in Go. -/
structure Descriptor where
  digest : String
  size : Int
  mediaType : String
deriving DecidableEq

/-- Errors surfaced by the store/catalog collaborators and by decoding,
kept abstract: the code under verification only creates `other` errors
and passes every collaborator error through unchanged. -/
inductive GoError where
  | notFound
  | decodeError (msg : String)
  | other (msg : String)
deriving DecidableEq

/-- Outcome of a Go call: a value, a returned `error`, or a runtime
panic (which in Go aborts the call chain instead of returning). -/
inductive GoResult (α : Type) where
  | ok (a : α)
  | err (e : GoError)
  | panicked (msg : String)
deriving DecidableEq

/-- The message of the Go runtime's nil-dereference panic. -/
def nilDerefMsg : String := "invalid memory address or nil pointer dereference"

/-- The containerd content store, addressed purely by digest: `blobs d`
is the stored bytes of digest `d`, or `none` when the digest is absent.
`Info` reports the byte length of the stored blob; `ReaderAt` reads it. -/
structure ContentStore where
  blobs : String → Option (List Char)

/-- `content.Info` for a digest: `some` size when present, `none` for the
store's not-found. -/
def storeInfo (store : ContentStore) (digest : String) : Option Int :=
  (store.blobs digest).map (fun bytes => (bytes.length : Int))

/-- A containerd image catalog entry: fully qualified name plus target
descriptor. -/
structure Image where
  name : String
  target : Descriptor
deriving DecidableEq

/-- The state `containerdRegistry` carries: the containerd client's
content store and image service (catalog), in the order
`ImageService.List` yields entries. -/
structure Registry where
  store : ContentStore
  images : List Image

/-- The catalog names in `List` order. -/
def imageNames (r : Registry) : List String :=
  r.images.map (fun img => img.name)

/-- `ImageService.Get`: exact-name lookup in the catalog. -/
def imagesGet (images : List Image) (nm : String) : Option Image :=
  images.find? (fun img => img.name == nm)

/-- `containerdBlobReader`: descriptor plus the lazily opened store
reader.  `readerAt = none` models the nil `content.ReaderAt` interface
field before `ensureReaderAt` has run; `some d` models an open store
reader on digest `d`. -/
structure ContainerdBlobReader where
  desc : Descriptor
  readerAt : Option String
deriving DecidableEq

/-- `containerdBlobReader.Close`: `return br.readerAt.Close()`.  When
`readerAt` is still the nil interface value this is a method call on
nil, which panics at runtime; otherwise the open store reader is closed. -/
def ContainerdBlobReader.close (br : ContainerdBlobReader) : GoResult Unit :=
  match br.readerAt with
  | none => .panicked nilDerefMsg
  | some _ => .ok ()

/-- `containerdBlobReader.validate`: query `ContentStore().Info` on the
descriptor's digest (propagating its error), then fill `Size` from the
store when unset and default an unset `MediaType` to
`application/octet-stream`. -/
def validate (store : ContentStore) (br : ContainerdBlobReader) :
    Except GoError ContainerdBlobReader :=
  match storeInfo store br.desc.digest with
  | none => .error .notFound
  | some infoSize =>
    let d1 :=
      if br.desc.size = 0 ∧ infoSize ≠ 0 then
        { br.desc with size := infoSize }
      else br.desc
    let d2 :=
      if d1.mediaType = "" then
        { d1 with mediaType := "application/octet-stream" }
      else d1
    .ok { br with desc := d2 }

/-- `newContainerdBlobReaderFromDescriptor`: build the reader with a nil
`readerAt`, run `validate`, and on validation failure call `br.Close()`
before returning the error (per the code's resource-release comment).
A panic raised by that `Close` propagates instead of the error. -/
def newContainerdBlobReaderFromDescriptor (store : ContentStore)
    (desc : Descriptor) : GoResult ContainerdBlobReader :=
  let br : ContainerdBlobReader := { desc := desc, readerAt := none }
  match validate store br with
  | .error e =>
    match br.close with
    | .panicked m => .panicked m
    | _ => .err e
  | .ok br2 => .ok br2

/-- `newContainerdBlobReaderFromDigest`: descriptor holding only the
digest (size `0`, media type `""`). -/
def newContainerdBlobReaderFromDigest (store : ContentStore)
    (digest : String) : GoResult ContainerdBlobReader :=
  newContainerdBlobReaderFromDescriptor store
    { digest := digest, size := 0, mediaType := "" }

/-- `containerdRegistry.GetBlob` (the `repo` argument is accepted but
unused, as in the source). -/
def GetBlob (r : Registry) (repo : String) (digest : String) :
    GoResult ContainerdBlobReader :=
  newContainerdBlobReaderFromDigest r.store digest

/-- `containerdRegistry.GetTag`: direct catalog lookup of
`repo + ":" + tagName`; on success the entry's target descriptor is
wrapped directly as a blob reader (no `validate`, no store access). -/
def GetTag (r : Registry) (repo : String) (tagName : String) :
    GoResult ContainerdBlobReader :=
  match imagesGet r.images (repo ++ ":" ++ tagName) with
  | none => .err .notFound
  | some img => .ok { desc := img.target, readerAt := none }

/-!
A model of `encoding/json`'s `Decoder.Decode` into
`struct \x7b MediaType string \x7d`, at the fidelity `GetManifest` relies
on: the decoder parses exactly the first JSON value of the stream
(consuming every byte of it — the source wires the decoder over the full
blob with no limiting reader); a top-level object yields the string value
of its `mediaType` field (last occurrence wins, absent or `null` leaves
the zero value `""`, a non-string field is an unmarshalling error); a
top-level `null` leaves the zero value; any other top-level value is an
unmarshalling error.  Simplifications (unused by any theorem): string
escape sequences are not interpreted, and numerals are kept as raw digit
spans.  Parsing is fuelled for termination; fuel decreases only when a
nested value or field begins, so `length + 1` fuel never runs out.
-/

/-- A parsed JSON value. -/
inductive Json where
  | null
  | bool (b : Bool)
  | num (digits : List Char)
  | str (chars : List Char)
  | arr (elems : List Json)
  | obj (fields : List (List Char × Json))

/-- JSON insignificant whitespace. -/
def isWsChar (c : Char) : Bool :=
  c == ' ' || c == '\n' || c == '\t' || c == '\r'

/-- Drop leading whitespace. -/
def skipWs : List Char → List Char
  | [] => []
  | c :: rest => if isWsChar c then skipWs rest else c :: rest

/-- Scan a string body up to the closing quote (escapes not modelled). -/
def parseStringChars : List Char → Option (List Char × List Char)
  | [] => none
  | c :: rest =>
    if c == '"' then some ([], rest)
    else
      match parseStringChars rest with
      | none => none
      | some (s, r) => some (c :: s, r)

/-- A character that may appear in a JSON numeral. -/
def isNumChar (c : Char) : Bool :=
  c.isDigit || c == '-' || c == '+' || c == '.' || c == 'e' || c == 'E'

/-- Greedily take numeral characters. -/
def spanNumChars : List Char → (List Char × List Char)
  | [] => ([], [])
  | c :: rest =>
    if isNumChar c then
      match spanNumChars rest with
      | (ds, r) => (c :: ds, r)
    else ([], c :: rest)

mutual

/-- Parse one JSON value; the caller has already skipped whitespace. -/
def parseValueCore : Nat → List Char → Option (Json × List Char)
  | 0, _ => none
  | fuel + 1, input =>
    match input with
    | [] => none
    | '"' :: rest =>
      match parseStringChars rest with
      | none => none
      | some (s, r) => some (.str s, r)
    | '\u007b' :: rest =>
      match skipWs rest with
      | '\u007d' :: r2 => some (.obj [], r2)
      | r2 =>
        match parseFieldsCore fuel r2 with
        | none => none
        | some (fs, r3) => some (.obj fs, r3)
    | '[' :: rest =>
      match skipWs rest with
      | ']' :: r2 => some (.arr [], r2)
      | r2 =>
        match parseElemsCore fuel r2 with
        | none => none
        | some (es, r3) => some (.arr es, r3)
    | 't' :: 'r' :: 'u' :: 'e' :: rest => some (.bool true, rest)
    | 'f' :: 'a' :: 'l' :: 's' :: 'e' :: rest => some (.bool false, rest)
    | 'n' :: 'u' :: 'l' :: 'l' :: rest => some (.null, rest)
    | other =>
      match spanNumChars other with
      | ([], _) => none
      | (ds, r) => some (.num ds, r)

/-- Parse object members from the first key (whitespace skipped). -/
def parseFieldsCore : Nat → List Char →
    Option (List (List Char × Json) × List Char)
  | 0, _ => none
  | fuel + 1, input =>
    match input with
    | '"' :: rest =>
      match parseStringChars rest with
      | none => none
      | some (key, r2) =>
        match skipWs r2 with
        | ':' :: r3 =>
          match parseValueCore fuel (skipWs r3) with
          | none => none
          | some (v, r4) =>
            match skipWs r4 with
            | ',' :: r5 =>
              match parseFieldsCore fuel (skipWs r5) with
              | none => none
              | some (fs, r6) => some ((key, v) :: fs, r6)
            | '\u007d' :: r5 => some ([(key, v)], r5)
            | _ => none
        | _ => none
    | _ => none

/-- Parse array elements from the first element (whitespace skipped). -/
def parseElemsCore : Nat → List Char → Option (List Json × List Char)
  | 0, _ => none
  | fuel + 1, input =>
    match parseValueCore fuel input with
    | none => none
    | some (v, r) =>
      match skipWs r with
      | ',' :: r2 =>
        match parseElemsCore fuel (skipWs r2) with
        | none => none
        | some (es, r3) => some (v :: es, r3)
      | ']' :: r2 => some ([v], r2)
      | _ => none

end

/-- Parse the first JSON value of `content`. -/
def parseJsonValue (content : List Char) : Option (Json × List Char) :=
  parseValueCore (content.length + 1) (skipWs content)

/-- The value of a JSON object field; Go's decoder lets the last
occurrence of a duplicated key win. -/
def lookupFieldLast (key : List Char) :
    List (List Char × Json) → Option Json
  | [] => none
  | (k, v) :: rest =>
    match lookupFieldLast key rest with
    | some v2 => some v2
    | none => if k == key then some v else none

/-- `json.NewDecoder(...).Decode(&mediaTypeWrapper)`: the decoded
`MediaType` value, or a decoding error. -/
def decodeMediaTypeWrapper (content : List Char) : Except GoError String :=
  match parseJsonValue content with
  | none => .error (.decodeError "invalid JSON")
  | some (.obj fields, _) =>
    match lookupFieldLast "mediaType".toList fields with
    | none => .ok ""
    | some (.str s) => .ok (String.mk s)
    | some .null => .ok ""
    | some _ => .error (.decodeError "cannot unmarshal into field MediaType")
  | some (.null, _) => .ok ""
  | some _ => .error (.decodeError "cannot unmarshal into mediaTypeWrapper")

/-- The number of blob bytes the decode step consumes: all of the first
JSON value (everything, if no value can be parsed) — the source installs
no limiting reader (its own TODO notes the missing guard). -/
def decodeConsumed (content : List Char) : Nat :=
  match parseJsonValue content with
  | some (_, rest) => content.length - rest.length
  | none => content.length

/-- `containerdRegistry.GetManifest`: open a raw store reader by digest
(not-found propagates), decode the blob's top-level `mediaType` (the
sniffing reader itself is closed by `defer ra.Close()`, which is sound —
it is a real open reader), fail when the field is empty, then build a
descriptor from the reader's size and the decoded type and wrap it via
`newContainerdBlobReaderFromDescriptor`. -/
def GetManifest (r : Registry) (repo : String) (digest : String) :
    GoResult ContainerdBlobReader :=
  match r.store.blobs digest with
  | none => .err .notFound
  | some bytes =>
    match decodeMediaTypeWrapper bytes with
    | .error e => .err e
    | .ok mt =>
      if mt = "" then .err (.other "failed to parse mediaType")
      else
        newContainerdBlobReaderFromDescriptor r.store
          { digest := digest, size := (bytes.length : Int), mediaType := mt }

/-- `containerdRegistry.ResolveBlob`: `GetBlob`, then return the
descriptor with `defer blobReader.Close()` — the deferred close's error
is discarded, but a panic it raises propagates instead of the return. -/
def ResolveBlob (r : Registry) (repo : String) (digest : String) :
    GoResult Descriptor :=
  match GetBlob r repo digest with
  | .err e => .err e
  | .panicked m => .panicked m
  | .ok br =>
    match br.close with
    | .panicked m => .panicked m
    | _ => .ok br.desc

/-- `containerdRegistry.ResolveManifest`: same deferred-close pattern
over `GetManifest`. -/
def ResolveManifest (r : Registry) (repo : String) (digest : String) :
    GoResult Descriptor :=
  match GetManifest r repo digest with
  | .err e => .err e
  | .panicked m => .panicked m
  | .ok br =>
    match br.close with
    | .panicked m => .panicked m
    | _ => .ok br.desc

/-- `containerdRegistry.ResolveTag`: same deferred-close pattern over
`GetTag`. -/
def ResolveTag (r : Registry) (repo : String) (tagName : String) :
    GoResult Descriptor :=
  match GetTag r repo tagName with
  | .err e => .err e
  | .panicked m => .panicked m
  | .ok br =>
    match br.close with
    | .panicked m => .panicked m
    | _ => .ok br.desc

/-!
A model of `github.com/containerd/containerd/reference/docker`'s
`Parse` and `ParseNormalizedNamed`, the two entry points `main.go` uses.
A reference splits as `name[:tag][@digest]`: the digest sits after the
first `@`; the tag after the first `:` that follows the last `/` of the
remaining name (path components never contain `:`, only a registry
host's port may, and only in the first component).  `Name()` is the name
part; `ParseNormalizedNamed` additionally normalises: a first component
with no `.`/`:` that is lowercase and not `localhost` is not a registry
host, so the default domain `docker.io` is prepended, `index.docker.io`
is canonicalised to `docker.io`, and single-component `docker.io` paths
gain the `library/` namespace.  Grammar validation is simplified to
character classes (component shapes such as the no-`..`-runs rule are
not enforced); every name any theorem below evaluates is far inside the
real grammar, where the model and the library agree.
-/

/-- One parsed docker reference: `Name()`, `Tag()` and digest. -/
structure ParsedRef where
  name : String
  tag : Option String
  digest : Option String
deriving DecidableEq

/-- Split at the first occurrence of `sep` (the separator dropped). -/
def splitAtFirstChar (sep : Char) : List Char → Option (List Char × List Char)
  | [] => none
  | c :: rest =>
    if c == sep then some ([], rest)
    else
      match splitAtFirstChar sep rest with
      | none => none
      | some (l, r) => some (c :: l, r)

/-- Split at the last occurrence of `sep` (the separator dropped). -/
def splitAtLastChar (sep : Char) (l : List Char) : Option (List Char × List Char) :=
  match splitAtFirstChar sep l.reverse with
  | none => none
  | some (r1, r2) => some (r2.reverse, r1.reverse)

/-- Split into the segments between occurrences of `sep`. -/
def splitOnChar (sep : Char) : List Char → List (List Char)
  | [] => [[]]
  | c :: rest =>
    if c == sep then [] :: splitOnChar sep rest
    else
      match splitOnChar sep rest with
      | [] => [[c]]
      | h :: t => (c :: h) :: t

/-- Lowercase letter or digit. -/
def isAlnumLower (c : Char) : Bool := c.isLower || c.isDigit

/-- A repository path component: alphanumerics joined by `.`, `_`, `-`. -/
def pathComponentValid (seg : List Char) : Bool :=
  (match seg.head? with | some c => isAlnumLower c | none => false) &&
  (match seg.getLast? with | some c => isAlnumLower c | none => false) &&
  seg.all (fun c => isAlnumLower c || c == '.' || c == '_' || c == '-')

/-- A character allowed in a registry host. -/
def isDomainChar (c : Char) : Bool :=
  c.isAlpha || c.isDigit || c == '.' || c == '-'

/-- A registry domain, optionally with a numeric port. -/
def domainValid (seg : List Char) : Bool :=
  match splitAtFirstChar ':' seg with
  | none => !seg.isEmpty && seg.all isDomainChar
  | some (host, port) =>
    !host.isEmpty && host.all isDomainChar &&
    !port.isEmpty && port.all Char.isDigit

/-- A repository name: the first component may be a registry host, every
other component is a path component. -/
def nameValid (nameChars : List Char) : Bool :=
  match splitOnChar '/' nameChars with
  | [] => false
  | first :: rest =>
    (domainValid first || pathComponentValid first) &&
    rest.all pathComponentValid

/-- A tag: `[\w][\w.-]` up to 128 characters. -/
def tagValid (t : List Char) : Bool :=
  (match t.head? with
   | some c => c.isAlpha || c.isDigit || c == '_'
   | none => false) &&
  decide (t.length ≤ 128) &&
  t.all (fun c => c.isAlpha || c.isDigit || c == '_' || c == '.' || c == '-')

/-- A hexadecimal digit. -/
def isHexChar (c : Char) : Bool :=
  c.isDigit || ('a' ≤ c && c ≤ 'f') || ('A' ≤ c && c ≤ 'F')

/-- A digest: `algorithm:hex` with at least 32 hex digits. -/
def digestValid (d : List Char) : Bool :=
  match splitAtFirstChar ':' d with
  | none => false
  | some (algo, hex) =>
    !algo.isEmpty && algo.all (fun c => c.isLower || c.isDigit) &&
    decide (32 ≤ hex.length) && hex.all isHexChar

/-- `docker.Parse` on the characters of a reference. -/
def dockerParseChars (s : List Char) : Option ParsedRef :=
  let basedg :=
    match splitAtFirstChar '@' s with
    | none => (s, none)
    | some (b, d) => (b, some d)
  let dirlast :=
    match splitAtLastChar '/' basedg.1 with
    | none => ((none : Option (List Char)), basedg.1)
    | some (d, l) => (some d, l)
  let nametag :=
    match splitAtFirstChar ':' dirlast.2 with
    | none => (dirlast.2, (none : Option (List Char)))
    | some (n, t) => (n, some t)
  let nameChars :=
    match dirlast.1 with
    | none => nametag.1
    | some d => d ++ '/' :: nametag.1
  if nameValid nameChars &&
      (match nametag.2 with | none => true | some t => tagValid t) &&
      (match basedg.2 with | none => true | some d => digestValid d) then
    some { name := String.mk nameChars, tag := nametag.2.map String.mk,
           digest := basedg.2.map String.mk }
  else none

/-- `docker.Parse`. -/
def dockerParse (s : String) : Option ParsedRef := dockerParseChars s.toList

/-- The default registry domain. -/
def dockerIoChars : List Char := "docker.io".toList

/-- `docker.ParseNormalizedNamed` on the characters of a name: reject
64-hex identifiers, split off the registry domain (defaulting to
`docker.io` and inserting `library/` for official images), require the
remote name be lowercase, then parse the rejoined reference. -/
def parseNormalizedNamedChars (s : List Char) : Option ParsedRef :=
  if decide (s.length = 64) &&
      s.all (fun c => c.isDigit || ('a' ≤ c && c ≤ 'f')) then none
  else
    let domrem :=
      match splitAtFirstChar '/' s with
      | none => (dockerIoChars, s)
      | some (first, rest) =>
        if !(first.any (fun c => c == '.' || c == ':')) &&
            !(first == "localhost".toList) && !(first.any Char.isUpper) then
          (dockerIoChars, s)
        else (first, rest)
    let domain :=
      if domrem.1 == "index.docker.io".toList then dockerIoChars else domrem.1
    let remainder :=
      if domain == dockerIoChars && !((domrem.2).any (fun c => c == '/')) then
        "library/".toList ++ domrem.2
      else domrem.2
    let remoteName :=
      match splitAtFirstChar ':' remainder with
      | none => remainder
      | some (n, _) => n
    if remoteName.any Char.isUpper then none
    else dockerParseChars (domain ++ '/' :: remainder)

/-- `docker.ParseNormalizedNamed`. -/
def parseNormalizedNamed (s : String) : Option ParsedRef :=
  parseNormalizedNamedChars s.toList

/-- The loop body of `containerdRegistry.Repositories`: parse the
qualified name (skipping unparseable entries), then append the parsed
repository name unless it equals the last emitted one. -/
def repoFoldStep (names : List String) (imageName : String) : List String :=
  match parseNormalizedNamed imageName with
  | none => names
  | some ref =>
    if 0 < names.length ∧ names.getLast? = some ref.name then names
    else names ++ [ref.name]

/-- `containerdRegistry.Repositories` over the catalog's name list. -/
def repositoriesList (catalogNames : List String) : List String :=
  catalogNames.foldl repoFoldStep []

/-- `containerdRegistry.Repositories`. -/
def Repositories (r : Registry) : List String :=
  repositoriesList (imageNames r)

/-- The loop body of `containerdRegistry.Tags`: parse with
`docker.Parse` (skipping unparseable entries), skip digested references,
and emit the tag of tagged ones. -/
def tagFoldStep (tags : List String) (imageName : String) : List String :=
  match dockerParse imageName with
  | none => tags
  | some ref =>
    if ref.digest.isSome then tags
    else
      match ref.tag with
      | some t => tags ++ [t]
      | none => tags

/-- Character-list prefix test (kernel-computable). -/
def listStartsWith : List Char → List Char → Bool
  | [], _ => true
  | _ :: _, [] => false
  | a :: as, b :: bs => a == b && listStartsWith as bs

/-- The catalog-side filter `name~="^<repo>:"` `Tags` passes to `List`:
with the pattern anchored at the start and `repo` quoted literally, a
name matches exactly when it begins with `repo:`. -/
def matchesTagFilter (repo nm : String) : Bool :=
  listStartsWith (repo ++ ":").toList nm.toList

/-- `containerdRegistry.Tags` over the catalog's name list, the catalog
already restricted by the anchored filter. -/
def tagsList (catalogNames : List String) (repo : String) : List String :=
  (catalogNames.filter (fun nm => matchesTagFilter repo nm)).foldl
    tagFoldStep []

/-- `containerdRegistry.Tags`. -/
def Tags (r : Registry) (repo : String) : List String :=
  tagsList (imageNames r) repo

/-- The pure dedupe-against-last step `Repositories` performs once a
name has parsed. -/
def repoStepPure (names : List String) (repo : String) : List String :=
  if 0 < names.length ∧ names.getLast? = some repo then names
  else names ++ [repo]

/-- The repository name `Repositories` derives from a catalog entry. -/
def parsedRepoOf (nm : String) : Option String :=
  (parseNormalizedNamed nm).map (fun ref => ref.name)

/-- Collapse runs of `prev`: the specification form of dedupe-by-last. -/
def dedupAdjGo (prev : String) : List String → List String
  | [] => []
  | b :: rest => if b = prev then dedupAdjGo prev rest else b :: dedupAdjGo b rest

/-- Collapse adjacent duplicates. -/
def dedupAdj : List String → List String
  | [] => []
  | a :: rest => a :: dedupAdjGo a rest

/-- The characters of the key `mediaType`; `padManifest n` is the
literal JSON object `\x7b"mediaType":"aa…a"\x7d` of length `n + 16`. -/
def mtKeyChars : List Char := ['m', 'e', 'd', 'i', 'a', 'T', 'y', 'p', 'e']

/-- A manifest blob whose declared media type is `n` `a`s. -/
def padManifest (n : Nat) : List Char :=
  '\u007b' :: '"' :: (mtKeyChars ++
    '"' :: ':' :: '"' :: (List.replicate n 'a' ++ ['"', '\u007d']))

/-- The descriptor `validate` produces from `d` when the store reports
size `infoSize` (proof-side normal form of `validate`'s two updates). -/
def completeDesc (infoSize : Int) (d : Descriptor) : Descriptor :=
  { digest := d.digest,
    size := if d.size = 0 ∧ infoSize ≠ 0 then infoSize else d.size,
    mediaType :=
      if d.mediaType = "" then "application/octet-stream" else d.mediaType }

/-!  Concrete fixtures used by the closed theorems and witnesses. -/

/-- A store holding one two-byte blob at digest `sha256:aa`. -/
def storeOneBlob : ContentStore :=
  ⟨fun d => if d = "sha256:aa" then some "xy".toList else none⟩

/-- A registry over `storeOneBlob` with an empty catalog. -/
def regOneBlob : Registry := ⟨storeOneBlob, []⟩

/-- The empty content store. -/
def storeEmpty : ContentStore := ⟨fun _ => none⟩

/-- A registry with an empty store and empty catalog. -/
def regEmpty : Registry := ⟨storeEmpty, []⟩

/-- The bytes of a well-formed OCI image manifest's opening, enough for
the sniffer: `\x7b"mediaType":"application/vnd.oci.image.manifest.v1+json"\x7d`. -/
def manifestBytes : List Char :=
  "\x7b\"mediaType\":\"application/vnd.oci.image.manifest.v1+json\"\x7d".toList

/-- A JSON blob with no top-level `mediaType` field. -/
def noTypeBytes : List Char := "\x7b\"schemaVersion\":2\x7d".toList

/-- A store holding the manifest blob at `sha256:mm` and the untyped
JSON blob at `sha256:nn`. -/
def storeManifest : ContentStore :=
  ⟨fun d =>
    if d = "sha256:mm" then some manifestBytes
    else if d = "sha256:nn" then some noTypeBytes
    else none⟩

/-- A registry over `storeManifest` whose catalog maps `r:t` to a target
descriptor. -/
def regManifest : Registry :=
  ⟨storeManifest,
   [⟨"r:t", ⟨"sha256:mm", 58, "application/vnd.oci.image.manifest.v1+json"⟩⟩]⟩

/-- A catalog, sorted by qualified name, in which docker-style name
normalisation makes the derived repository names non-contiguous: the
outer two entries are short names of the official-image form, the middle
entry carries a registry host with a port. -/
def regMixedNames : Registry :=
  ⟨storeEmpty,
   [⟨"r:4000abc", ⟨"", 0, ""⟩⟩, ⟨"r:5000/x:t", ⟨"", 0, ""⟩⟩,
    ⟨"r:6000abc", ⟨"", 0, ""⟩⟩]⟩

/-- A catalog whose single entry names a repository on host `foo`, port
`5000` — its qualified name nevertheless begins with `foo:`. -/
def regPortRepo : Registry := ⟨storeEmpty, [⟨"foo:5000/x:t", ⟨"", 0, ""⟩⟩]⟩

/-- A two-repository catalog with fully qualified names. -/
def regPlainNames : Registry :=
  ⟨storeEmpty,
   [⟨"docker.io/library/a:1", ⟨"", 0, ""⟩⟩, ⟨"docker.io/library/a:2", ⟨"", 0, ""⟩⟩,
    ⟨"docker.io/library/b:1", ⟨"", 0, ""⟩⟩]⟩

/-- A store holding a 42-byte blob at `sha256:cc`. -/
def storeFortyTwo : ContentStore :=
  ⟨fun d => if d = "sha256:cc" then some (List.replicate 42 'x') else none⟩

/-- A registry over `storeFortyTwo`. -/
def regFortyTwo : Registry := ⟨storeFortyTwo, []⟩

/-- A registry whose catalog maps `a/b:v` to a target descriptor that is
still incomplete (size `0`, no media type) and whose digest is absent
from the (empty) store. -/
def regTagOnly : Registry :=
  ⟨storeEmpty, [⟨"a/b:v", ⟨"sha256:zz", 0, ""⟩⟩]⟩

/-- A blob reader over `sha256:aa` whose descriptor is already complete. -/
def brComplete : ContainerdBlobReader :=
  ⟨⟨"sha256:aa", 2, "text/plain"⟩, none⟩

/-!  Theorems. -/

/-- Claim C1 (refuted by the code; evaluating the failing input): on a
store holding digest `sha256:aa`, `GetBlob` succeeds and hands back a
stream whose store reader is still unopened (`readerAt = none`, reads
being lazy), and calling `Close` on that stream — before any `Read` —
does not succeed without error: it dereferences the nil `readerAt` and
panics. -/
theorem close_before_read_panics :
    GetBlob regOneBlob "r" "sha256:aa" =
      .ok ⟨⟨"sha256:aa", 2, "application/octet-stream"⟩, none⟩ ∧
    ContainerdBlobReader.close
      ⟨⟨"sha256:aa", 2, "application/octet-stream"⟩, none⟩ =
      .panicked nilDerefMsg :=
  ⟨rfl, rfl⟩

/-- Claim C2 (refuted by the code; evaluating the failing input): for a
digest absent from the store, `validate` does produce the store's
not-found error, but `GetBlob` does not return it to the caller:
`newContainerdBlobReaderFromDescriptor`'s error path calls `br.Close()`
while `readerAt` is still nil, so the construction panics.  (No store
reader was ever opened: `validate` only queries `Info`.) -/
theorem getBlob_absent_digest_panics :
    validate storeEmpty ⟨⟨"sha256:bb", 0, ""⟩, none⟩ = .error .notFound ∧
    GetBlob regEmpty "r" "sha256:bb" = .panicked nilDerefMsg :=
  ⟨rfl, rfl⟩

/-- Claim C3 (refuted by the code; evaluating the failing inputs): on a
registry where `GetBlob`, `GetManifest` and `GetTag` each succeed, every
resolve variant panics instead of returning the descriptor: the deferred
`blobReader.Close()` runs on a stream that was never read, whose
`readerAt` is still nil. -/
theorem resolve_deferred_close_panics :
    ResolveBlob regManifest "r" "sha256:mm" = .panicked nilDerefMsg ∧
    ResolveManifest regManifest "r" "sha256:mm" = .panicked nilDerefMsg ∧
    ResolveTag regManifest "r" "t" = .panicked nilDerefMsg :=
  ⟨rfl, rfl, rfl⟩

/-- Claim C7: when the store holds the digest with a 42-byte blob (and
tracks no media type), `GetBlob` succeeds and the stream's descriptor is
exactly the digest, size 42 filled from the store, and the default
`application/octet-stream` media type. -/
theorem getBlob_completes_descriptor (r : Registry) (repo d : String)
    (bytes : List Char) (hb : r.store.blobs d = some bytes)
    (hlen : bytes.length = 42) :
    GetBlob r repo d = .ok ⟨⟨d, 42, "application/octet-stream"⟩, none⟩ := by
  simp [GetBlob, newContainerdBlobReaderFromDigest,
    newContainerdBlobReaderFromDescriptor, validate, storeInfo, hb, hlen]

/-- Witness for C7 at a concrete 42-byte blob. -/
theorem getBlob_completes_descriptor_witness :
    GetBlob regFortyTwo "r" "sha256:cc" =
      .ok ⟨⟨"sha256:cc", 42, "application/octet-stream"⟩, none⟩ :=
  getBlob_completes_descriptor regFortyTwo "r" "sha256:cc"
    (List.replicate 42 'x') rfl (by decide)

/-- Claim C10: `GetTag` looks the qualified name up in the catalog and,
on a hit, wraps the entry's target descriptor unchanged — no descriptor
completion and no store access (the result is the same for every store,
in particular when the target digest is absent); on a miss it returns
the catalog's not-found error. -/
theorem getTag_direct (r : Registry) (repo tagName : String) :
    (∀ img, imagesGet r.images (repo ++ ":" ++ tagName) = some img →
      GetTag r repo tagName = .ok ⟨img.target, none⟩ ∧
      ∀ store2, GetTag ⟨store2, r.images⟩ repo tagName =
        GetTag r repo tagName) ∧
    (imagesGet r.images (repo ++ ":" ++ tagName) = none →
      GetTag r repo tagName = .err .notFound) := by
  refine ⟨fun img h => ⟨?_, fun store2 => ?_⟩, fun h => ?_⟩
  · simp [GetTag, h]
  · simp [GetTag]
  · simp [GetTag, h]

/-- Witness for C10: a catalog entry whose target is incomplete (size
`0`, empty media type) over an empty store — `GetTag` returns it
unchanged, the store is irrelevant, and a missing tag is not-found. -/
theorem getTag_direct_witness :
    GetTag regTagOnly "a/b" "v" = .ok ⟨⟨"sha256:zz", 0, ""⟩, none⟩ ∧
    GetTag ⟨storeOneBlob, regTagOnly.images⟩ "a/b" "v" =
      GetTag regTagOnly "a/b" "v" ∧
    GetTag regTagOnly "a/b" "w" = .err .notFound :=
  ⟨((getTag_direct regTagOnly "a/b" "v").1 ⟨"a/b:v", ⟨"sha256:zz", 0, ""⟩⟩
      rfl).1,
   ((getTag_direct regTagOnly "a/b" "v").1 ⟨"a/b:v", ⟨"sha256:zz", 0, ""⟩⟩
      rfl).2 storeOneBlob,
   (getTag_direct regTagOnly "a/b" "w").2 rfl⟩

/-- Claim C8: with the blob present in the store, `GetManifest` fails —
returning no stream at all — whenever the decoded `mediaType` is empty
(field absent, empty, or JSON `null`) or the decode itself errors; and
on success the returned stream's descriptor carries exactly the decoded
media type and the store's exact byte length. -/
theorem getManifest_mediaType (r : Registry) (repo d : String)
    (bytes : List Char) (hb : r.store.blobs d = some bytes) :
    (decodeMediaTypeWrapper bytes = .ok "" →
      GetManifest r repo d = .err (.other "failed to parse mediaType")) ∧
    (∀ e, decodeMediaTypeWrapper bytes = .error e →
      GetManifest r repo d = .err e) ∧
    (∀ mt, decodeMediaTypeWrapper bytes = .ok mt → mt ≠ "" →
      GetManifest r repo d = .ok ⟨⟨d, (bytes.length : Int), mt⟩, none⟩) := by
  refine ⟨fun hdec => ?_, fun e hdec => ?_, fun mt hdec hmt => ?_⟩
  · simp [GetManifest, hb, hdec]
  · simp [GetManifest, hb, hdec]
  · simp only [GetManifest, hb, hdec, if_neg hmt,
      newContainerdBlobReaderFromDescriptor, validate, storeInfo, Option.map_some]
    by_cases hL : (bytes.length : Int) = 0 <;> simp [hL, hmt]

/-- Witness for C8: the untyped JSON blob is rejected, the well-typed
manifest's descriptor carries the sniffed type and exact size. -/
theorem getManifest_mediaType_witness :
    GetManifest regManifest "r" "sha256:nn" =
      .err (.other "failed to parse mediaType") ∧
    GetManifest regManifest "r" "sha256:mm" =
      .ok ⟨⟨"sha256:mm", 58,
        "application/vnd.oci.image.manifest.v1+json"⟩, none⟩ :=
  ⟨(getManifest_mediaType regManifest "r" "sha256:nn" noTypeBytes rfl).1 rfl,
   (getManifest_mediaType regManifest "r" "sha256:mm" manifestBytes rfl).2.2
     "application/vnd.oci.image.manifest.v1+json" rfl (by decide)⟩

/-- `validate` in normal form: with `Info` reporting `infoSize`, it
succeeds and performs exactly the two `completeDesc` field updates. -/
theorem validate_eq_completeDesc (store : ContentStore) (infoSize : Int)
    (br : ContainerdBlobReader)
    (hb : storeInfo store br.desc.digest = some infoSize) :
    validate store br =
      .ok { br with desc := completeDesc infoSize br.desc } := by
  simp only [validate, hb, completeDesc]
  split_ifs <;> rfl

/-- Completing an already-completed descriptor changes nothing. -/
theorem completeDesc_idem (infoSize : Int) (d : Descriptor) :
    completeDesc infoSize (completeDesc infoSize d) = completeDesc infoSize d := by
  by_cases hs : d.size = 0 ∧ infoSize ≠ 0 <;> by_cases hm : d.mediaType = "" <;>
    simp_all [completeDesc]

/-- Claim C9: descriptor completion is idempotent: when the digest is in
the store, `validate` leaves a descriptor whose size and media type are
already set fully unchanged, and a second `validate` after a first one
is always a no-op. -/
theorem validate_idempotent (store : ContentStore) (br : ContainerdBlobReader)
    (hin : (store.blobs br.desc.digest).isSome) :
    (br.desc.size ≠ 0 → br.desc.mediaType ≠ "" → validate store br = .ok br) ∧
    (∀ br2, validate store br = .ok br2 → validate store br2 = .ok br2) := by
  obtain ⟨bytes, hb⟩ := Option.isSome_iff_exists.mp hin
  have hsi : storeInfo store br.desc.digest = some (bytes.length : Int) := by
    simp [storeInfo, hb]
  constructor
  · intro hs hm
    rw [validate_eq_completeDesc store _ br hsi]
    simp [completeDesc, hs, hm]
  · intro br2 h2
    rw [validate_eq_completeDesc store _ br hsi] at h2
    injection h2 with h3
    subst h3
    rw [validate_eq_completeDesc store ((bytes.length : Int))
      { desc := completeDesc ((bytes.length : Int)) br.desc,
        readerAt := br.readerAt } hsi]
    simp [completeDesc_idem]

/-- Witness for C9: a complete descriptor over `storeOneBlob` is left
unchanged, and re-validating a just-validated reader is a no-op. -/
theorem validate_idempotent_witness :
    validate storeOneBlob brComplete = .ok brComplete ∧
    validate storeOneBlob ⟨⟨"sha256:aa", 2, "application/octet-stream"⟩, none⟩ =
      .ok ⟨⟨"sha256:aa", 2, "application/octet-stream"⟩, none⟩ :=
  ⟨(validate_idempotent storeOneBlob brComplete (by decide)).1
      (by decide) (by decide),
   (validate_idempotent storeOneBlob ⟨⟨"sha256:aa", 0, ""⟩, none⟩
      (by decide)).2 ⟨⟨"sha256:aa", 2, "application/octet-stream"⟩, none⟩ rfl⟩

/-- Folding the `Repositories` loop body equals folding its pure
dedupe-by-last step over the successfully parsed repository names. -/
theorem foldl_repoFoldStep_eq (l : List String) :
    ∀ acc, l.foldl repoFoldStep acc =
      (l.filterMap parsedRepoOf).foldl repoStepPure acc := by
  induction l with
  | nil => intro acc; rfl
  | cons nm l ih =>
    intro acc
    simp only [List.foldl_cons, List.filterMap_cons, parsedRepoOf]
    cases h : parseNormalizedNamed nm with
    | none => simpa [repoFoldStep, h] using ih _
    | some ref => simpa [repoFoldStep, repoStepPure, h] using ih _

/-- Folding the pure dedupe-by-last step from a non-empty accumulator
appends the run-collapsed remainder. -/
theorem foldl_repoStepPure_eq_dedupAdjGo (rs : List String) :
    ∀ (acc : List String) (p : String), acc.getLast? = some p →
      rs.foldl repoStepPure acc = acc ++ dedupAdjGo p rs := by
  induction rs with
  | nil => intro acc p _; simp [dedupAdjGo]
  | cons r rs ih =>
    intro acc p hlast
    have hpos : 0 < acc.length := by
      cases acc with
      | nil => simp at hlast
      | cons a l => simp
    by_cases hrp : r = p
    · subst hrp
      have hstep : repoStepPure acc r = acc := by
        simp [repoStepPure, hpos, hlast]
      simp only [List.foldl_cons, hstep, dedupAdjGo, if_pos rfl]
      exact ih acc r hlast
    · have hstep : repoStepPure acc r = acc ++ [r] := by
        simp only [repoStepPure, hlast]
        rw [if_neg]
        rintro ⟨-, h2⟩
        exact hrp (Option.some_injective _ h2).symm
      have hlast2 : (acc ++ [r]).getLast? = some r := by
        simp [List.getLast?_append_cons]
      simp only [List.foldl_cons, hstep, dedupAdjGo, if_neg hrp]
      rw [ih (acc ++ [r]) r hlast2, List.append_assoc]
      rfl

/-- `Repositories`' output is exactly the parsed repository-name
sequence with adjacent duplicates collapsed. -/
theorem repositoriesList_eq_dedupAdj (catalogNames : List String) :
    repositoriesList catalogNames =
      dedupAdj (catalogNames.filterMap parsedRepoOf) := by
  rw [repositoriesList, foldl_repoFoldStep_eq]
  cases h : catalogNames.filterMap parsedRepoOf with
  | nil => rfl
  | cons r rs =>
    have hstep : repoStepPure [] r = [r] := by simp [repoStepPure]
    simp only [List.foldl_cons, hstep]
    rw [foldl_repoStepPure_eq_dedupAdjGo rs [r] r rfl]
    rfl

/-- Everything the run-collapse emits was in the input. -/
theorem mem_of_mem_dedupAdjGo :
    ∀ (l : List String) (p x : String), x ∈ dedupAdjGo p l → x ∈ l
  | [], _, _, h => by simp [dedupAdjGo] at h
  | b :: rest, p, x, h => by
    rw [dedupAdjGo] at h
    by_cases hbp : b = p
    · rw [if_pos hbp] at h
      exact List.mem_cons_of_mem _ (mem_of_mem_dedupAdjGo rest p x h)
    · rw [if_neg hbp] at h
      rcases List.mem_cons.mp h with h1 | h2
      · exact h1 ▸ List.mem_cons_self _ _
      · exact List.mem_cons_of_mem _ (mem_of_mem_dedupAdjGo rest b x h2)

/-- Everything in the input survives the run-collapse (up to the run
head it merged into). -/
theorem mem_dedupAdjGo_of_mem :
    ∀ (l : List String) (p x : String), x ∈ l → x = p ∨ x ∈ dedupAdjGo p l
  | b :: rest, p, x, h => by
    rw [dedupAdjGo]
    by_cases hbp : b = p
    · rw [if_pos hbp]
      rcases List.mem_cons.mp h with h1 | h2
      · exact Or.inl (h1.trans hbp)
      · exact mem_dedupAdjGo_of_mem rest p x h2
    · rw [if_neg hbp]
      rcases List.mem_cons.mp h with h1 | h2
      · exact Or.inr (h1 ▸ List.mem_cons_self _ _)
      · rcases mem_dedupAdjGo_of_mem rest b x h2 with h3 | h3
        · exact Or.inr (h3 ▸ List.mem_cons_self _ _)
        · exact Or.inr (List.mem_cons_of_mem _ h3)

/-- `dedupAdj` preserves membership exactly. -/
theorem mem_dedupAdj (l : List String) (x : String) :
    x ∈ dedupAdj l ↔ x ∈ l := by
  cases l with
  | nil => simp [dedupAdj]
  | cons a rest =>
    rw [dedupAdj]
    constructor
    · intro h
      rcases List.mem_cons.mp h with h1 | h2
      · exact h1 ▸ List.mem_cons_self _ _
      · exact List.mem_cons_of_mem _ (mem_of_mem_dedupAdjGo rest a x h2)
    · intro h
      rcases List.mem_cons.mp h with h1 | h2
      · exact h1 ▸ List.mem_cons_self _ _
      · rcases mem_dedupAdjGo_of_mem rest a x h2 with h3 | h3
        · exact h3 ▸ List.mem_cons_self _ _
        · exact List.mem_cons_of_mem _ h3

/-- On a non-decreasing run, the run-collapse is strictly increasing. -/
theorem chain_lt_dedupAdjGo :
    ∀ (l : List String) (p : String), List.Chain' (· ≤ ·) (p :: l) →
      List.Chain' (· < ·) (p :: dedupAdjGo p l)
  | [], _, _ => by simp [dedupAdjGo]
  | b :: rest, p, h => by
    rw [List.chain'_cons] at h
    rw [dedupAdjGo]
    by_cases hbp : b = p
    · rw [if_pos hbp]
      exact chain_lt_dedupAdjGo rest p (hbp ▸ h.2)
    · rw [if_neg hbp]
      rw [List.chain'_cons]
      exact ⟨lt_of_le_of_ne h.1 (Ne.symm hbp), chain_lt_dedupAdjGo rest b h.2⟩

/-- On a sorted input, `dedupAdj` is strictly sorted. -/
theorem pairwise_dedupAdj (l : List String) (h : List.Chain' (· ≤ ·) l) :
    List.Pairwise (· < ·) (dedupAdj l) := by
  cases l with
  | nil => simp [dedupAdj]
  | cons a rest =>
    rw [dedupAdj, ← List.chain'_iff_pairwise]
    exact chain_lt_dedupAdjGo rest a h

/-- Claim C5 (amended): whenever the repository names parsed out of the
catalog form a non-decreasing sequence (in particular whenever the
catalog's sortedness survives name normalisation), `Repositories` emits
each distinct parsed repository name exactly once, in strictly
increasing order; in general its output is the parsed sequence with only
adjacent duplicates collapsed (dedupe compares against the immediately
preceding emitted name only). -/
theorem repositories_dedup_sorted (r : Registry)
    (h : List.Chain' (· ≤ ·) ((imageNames r).filterMap parsedRepoOf)) :
    List.Pairwise (· < ·) (Repositories r) ∧
    (∀ x, x ∈ Repositories r ↔ x ∈ (imageNames r).filterMap parsedRepoOf) := by
  rw [Repositories, repositoriesList_eq_dedupAdj]
  exact ⟨pairwise_dedupAdj _ h, fun x => mem_dedupAdj _ x⟩

/-- Witness for C5 (amended) on a fully qualified, sorted catalog. -/
theorem repositories_dedup_sorted_witness :
    List.Pairwise (· < ·) (Repositories regPlainNames) ∧
    (∀ x, x ∈ Repositories regPlainNames ↔
      x ∈ (imageNames regPlainNames).filterMap parsedRepoOf) :=
  repositories_dedup_sorted regPlainNames (by
    have heq : (imageNames regPlainNames).filterMap parsedRepoOf =
        ["docker.io/library/a", "docker.io/library/a", "docker.io/library/b"] := by
      decide
    rw [heq]
    simp only [List.chain'_cons, List.chain'_singleton, and_true]
    refine ⟨le_refl _, ?_⟩
    rw [String.le_iff_toList_le]
    decide)

/-- Claim C5 counterexample: a catalog sorted by qualified name on which
`Repositories` emits `docker.io/library/r` twice (name normalisation
makes equal parsed repositories non-adjacent), so the output is neither
duplicate-free nor sorted. -/
theorem repositories_duplicate_on_sorted_catalog :
    List.Chain' (· ≤ ·) (imageNames regMixedNames) ∧
    Repositories regMixedNames =
      ["docker.io/library/r", "r:5000/x", "docker.io/library/r"] ∧
    List.count "docker.io/library/r" (Repositories regMixedNames) = 2 ∧
    ¬ List.Pairwise (· ≤ ·) (Repositories regMixedNames) := by
  have heq : Repositories regMixedNames =
      ["docker.io/library/r", "r:5000/x", "docker.io/library/r"] := by decide
  refine ⟨?_, heq, by rw [heq]; decide, ?_⟩
  · show List.Chain' (· ≤ ·) ["r:4000abc", "r:5000/x:t", "r:6000abc"]
    simp only [List.chain'_cons, List.chain'_singleton, and_true]
    constructor <;> (rw [String.le_iff_toList_le]; decide)
  · intro hp
    rw [heq] at hp
    have hbc : ("r:5000/x" : String) ≤ "docker.io/library/r" :=
      (List.pairwise_cons.mp (List.pairwise_cons.mp hp).2).1 _ (by simp)
    rw [String.le_iff_toList_le] at hbc
    exact absurd hbc (by decide)

/-- Every tag the `Tags` loop emits (beyond the accumulator) originates
in a catalog entry that parses digest-free and tagged with that tag. -/
theorem foldl_tagFoldStep_mem :
    ∀ (l : List String) (acc : List String) (t : String),
      t ∈ l.foldl tagFoldStep acc →
      t ∈ acc ∨ ∃ nm, nm ∈ l ∧ ∃ ref, dockerParse nm = some ref ∧
        ref.digest = none ∧ ref.tag = some t
  | [], acc, t, h => Or.inl h
  | nm :: l, acc, t, h => by
    rcases foldl_tagFoldStep_mem l (tagFoldStep acc nm) t h with h1 | h2
    · rw [tagFoldStep] at h1
      cases hp : dockerParse nm with
      | none => simp only [hp] at h1; exact Or.inl h1
      | some ref =>
        simp only [hp] at h1
        by_cases hd : ref.digest.isSome
        · rw [if_pos hd] at h1; exact Or.inl h1
        · rw [if_neg hd] at h1
          cases ht : ref.tag with
          | none => simp only [ht] at h1; exact Or.inl h1
          | some t2 =>
            simp only [ht] at h1
            rcases List.mem_append.mp h1 with h3 | h3
            · exact Or.inl h3
            · refine Or.inr ⟨nm, List.mem_cons_self _ _, ref, hp, ?_, ?_⟩
              · exact Option.not_isSome_iff_eq_none.mp hd
              · rw [ht]
                exact congrArg some (List.mem_singleton.mp h3).symm
    · rcases h2 with ⟨nm2, hmem, hrest⟩
      exact Or.inr ⟨nm2, List.mem_cons_of_mem _ hmem, hrest⟩

/-- Claim C6 (amended): every tag `Tags` emits originates in a catalog
entry whose qualified name passes the anchored `repo:` filter — so
repository `foo` never draws from `foobar:...` entries — and whose
parse is tagged, never digest-qualified, with exactly that tag.  (The
stronger original reading, that `repo:tag` itself is then a catalog
entry, fails: the matching entry can be `repo:port/path:tag`.) -/
theorem tags_origin (r : Registry) (repo t : String)
    (h : t ∈ Tags r repo) :
    ∃ nm, nm ∈ imageNames r ∧ matchesTagFilter repo nm = true ∧
      ∃ ref, dockerParse nm = some ref ∧ ref.digest = none ∧
        ref.tag = some t := by
  rw [Tags, tagsList] at h
  rcases foldl_tagFoldStep_mem _ [] t h with h0 | ⟨nm, hmem, href⟩
  · simp at h0
  · have h2 := List.mem_filter.mp hmem
    exact ⟨nm, h2.1, h2.2, href⟩

/-- Witness for C6 (amended) at a concrete catalog. -/
theorem tags_origin_witness :
    ∃ nm, nm ∈ imageNames regTagOnly ∧ matchesTagFilter "a/b" nm = true ∧
      ∃ ref, dockerParse nm = some ref ∧ ref.digest = none ∧
        ref.tag = some "v" :=
  tags_origin regTagOnly "a/b" "v" (by decide)

/-- Claim C6 counterexample: on the catalog containing only
`foo:5000/x:t` (a repository on host `foo`, port `5000`), `Tags` for
repository `foo` emits `t`, yet the recombination `foo:t` names no
catalog entry — the anchored `foo:` filter also matches `foo:port/...`
names. -/
theorem tags_recombination_fails :
    Tags regPortRepo "foo" = ["t"] ∧
    "foo:t" ∉ imageNames regPortRepo := by
  refine ⟨by decide, by decide⟩

/-- Scanning a quote-free body consumes it up to the closing quote. -/
theorem parseStringChars_noquote :
    ∀ (key rest : List Char), (∀ c ∈ key, (c == '"') = false) →
      parseStringChars (key ++ '"' :: rest) = some (key, rest)
  | [], rest, _ => by simp [parseStringChars]
  | c :: key, rest, h => by
    have hc : (c == '"') = false := h c (List.mem_cons_self _ _)
    simp only [List.cons_append, parseStringChars, hc, Bool.false_eq_true,
      if_false, List.append_eq]
    rw [parseStringChars_noquote key rest
      (fun c2 hc2 => h c2 (List.mem_cons_of_mem _ hc2))]

/-- Parsing the padded string value consumes all `n` characters. -/
theorem parseValueCore_padString (k n : Nat) :
    parseValueCore (k + 1) ('"' :: (List.replicate n 'a' ++ '"' :: ['}'])) =
      some (Json.str (List.replicate n 'a'), ['}']) := by
  have h1 := parseStringChars_noquote (List.replicate n 'a') ['}']
    (fun c hc => by rw [List.eq_of_mem_replicate hc]; rfl)
  show (match parseStringChars (List.replicate n 'a' ++ '"' :: ['}']) with
        | none => none
        | some (s, r) => some (Json.str s, r)) =
      some (Json.str (List.replicate n 'a'), ['}'])
  rw [h1]

/-- Parsing the single `mediaType` member of the padded manifest
consumes the whole remainder. -/
theorem parseFieldsCore_padField (k n : Nat) :
    parseFieldsCore (k + 1 + 1)
      ('"' :: (mtKeyChars ++ '"' :: ':' :: '"' ::
        (List.replicate n 'a' ++ '"' :: ['}']))) =
      some ([(mtKeyChars, Json.str (List.replicate n 'a'))], []) := by
  have hkey : parseStringChars (mtKeyChars ++ '"' :: ':' :: '"' ::
      (List.replicate n 'a' ++ '"' :: ['}'])) =
      some (mtKeyChars, ':' :: '"' :: (List.replicate n 'a' ++ '"' :: ['}'])) :=
    parseStringChars_noquote _ _ (by decide)
  have hval := parseValueCore_padString k n
  show (match parseStringChars (mtKeyChars ++ '"' :: ':' :: '"' ::
          (List.replicate n 'a' ++ '"' :: ['}'])) with
        | none => none
        | some (key, r2) =>
          match skipWs r2 with
          | ':' :: r3 =>
            match parseValueCore (k + 1) (skipWs r3) with
            | none => none
            | some (v, r4) =>
              match skipWs r4 with
              | ',' :: r5 =>
                match parseFieldsCore (k + 1) (skipWs r5) with
                | none => none
                | some (fs, r6) => some ((key, v) :: fs, r6)
              | '}' :: r5 => some ([(key, v)], r5)
              | _ => none
          | _ => none) =
      some ([(mtKeyChars, Json.str (List.replicate n 'a'))], [])
  rw [hkey]
  show (match parseValueCore (k + 1)
          ('"' :: (List.replicate n 'a' ++ '"' :: ['}'])) with
        | none => none
        | some (v, r4) =>
          match skipWs r4 with
          | ',' :: r5 =>
            match parseFieldsCore (k + 1) (skipWs r5) with
            | none => none
            | some (fs, r6) => some ((mtKeyChars, v) :: fs, r6)
          | '}' :: r5 => some ([(mtKeyChars, v)], r5)
          | _ => none) =
      some ([(mtKeyChars, Json.str (List.replicate n 'a'))], [])
  rw [hval]
  rfl

/-- Parsing the padded manifest object consumes the entire blob. -/
theorem parseValueCore_padObject (k n : Nat) :
    parseValueCore (k + 1 + 1 + 1) (padManifest n) =
      some (Json.obj [(mtKeyChars, Json.str (List.replicate n 'a'))], []) := by
  have hf := parseFieldsCore_padField k n
  show (match parseFieldsCore (k + 1 + 1)
          ('"' :: (mtKeyChars ++ '"' :: ':' :: '"' ::
            (List.replicate n 'a' ++ '"' :: ['}']))) with
        | none => none
        | some (fs, r3) => some (Json.obj fs, r3)) =
      some (Json.obj [(mtKeyChars, Json.str (List.replicate n 'a'))], [])
  rw [hf]

/-- The decode step of `GetManifest` consumes all `n + 16` bytes of the
padded manifest. -/
theorem decodeConsumed_padManifest (n : Nat) :
    decodeConsumed (padManifest n) = n + 16 := by
  have hlen : (padManifest n).length = n + 16 := by
    simp [padManifest, mtKeyChars]
  have hv : parseJsonValue (padManifest n) =
      some (Json.obj [(mtKeyChars, Json.str (List.replicate n 'a'))], []) := by
    rw [parseJsonValue, hlen]
    exact parseValueCore_padObject (n + 14) n
  simp only [decodeConsumed, hv, hlen, List.length_nil]
  omega

/-- Claim C4 (refuted by the code): there is no fixed bound on the
number of blob bytes `GetManifest`'s media-type decode reads — the
decoder is wired over the whole blob with no limiting reader (the
source's own TODO notes the missing guard), so a valid manifest whose
declared type string is `n` characters long forces `n + 16` bytes of
parsing before the type is found, for every `n`. -/
theorem manifest_decode_unbounded :
    ¬ ∃ maxBytes : Nat, ∀ content : List Char,
      decodeConsumed content ≤ maxBytes := by
  rintro ⟨N, hN⟩
  have h := hN (padManifest (N + 1))
  rw [decodeConsumed_padManifest] at h
  omega
